import Mathlib

/-!
Verification of the ISON TypeScript parser/serializer (ison-ts).

The definitions below are a shallow embedding of the TypeScript source:
the classes Reference / Block / Document, the Parser (tokenizeLine,
parseQuotedString, findCommentStart, parseValue, parseReference, parseBlock,
parse), the Serializer (serializeString, serializeValue, serializeRow,
calculateWidths, serializeBlock, serialize / dumps) and the ISONL
parser/serializer (tokenizeValues, parseValue, parse / loadsIsonl,
serialize / dumpsIsonl).

Strings are modelled as List Char.  JavaScript index loops are modelled by
structural recursion, or, where the loop is not structurally decreasing,
by fuel recursion with fuel = length + 1 (each iteration of the
corresponding JS loop consumes at least one character, so the fuel never
runs out on the entry points defined here).  JS numbers are modelled as
Int (integer literals) and Rat (decimal literals, exact decimal value;
IEEE-754 rounding of `parseFloat` is abstracted away - no theorem below
depends on float identity).  String.prototype.trim is modelled over the
ASCII whitespace characters space, tab, CR, LF that can actually occur in
the parsed text.
-/

namespace Ison

/-- ASCII decimal digit, the JS regex class [0-9] (also written d). -/
def isDigitC (c : Char) : Bool := 48 ≤ c.toNat && c.toNat ≤ 57

/-- ASCII lower-case letter, the JS regex class [a-z]. -/
def isLowerC (c : Char) : Bool := 97 ≤ c.toNat && c.toNat ≤ 122

/-- ASCII upper-case letter or underscore, the JS regex class [A-Z_]. -/
def isUpperUnd (c : Char) : Bool := (65 ≤ c.toNat && c.toNat ≤ 90) || c = '_'

/-- JS String.prototype.toUpperCase restricted to ASCII (the only case the
source exercises: the result is compared under a [A-Z_] regex). -/
def jsToUpperChar (c : Char) : Char :=
  if isLowerC c then Char.ofNat (c.toNat - 32) else c

/-- Whitespace stripped by String.prototype.trim (ASCII subset). -/
def isTrimWs (c : Char) : Bool := c = ' ' || c = '\t' || c = '\r' || c = '\n'

/-- Token-separating whitespace of the tokenizer: space and tab only. -/
def isSepWs (c : Char) : Bool := c = ' ' || c = '\t'

/-- JS String.prototype.trim (both ends). -/
def trim (s : List Char) : List Char :=
  ((s.dropWhile isTrimWs).reverse.dropWhile isTrimWs).reverse

/-- JS String.prototype.split with a one-character separator: n separators
yield n+1 (possibly empty) parts. -/
def splitOnChar (sep : Char) : List Char → List (List Char)
  | [] => [[]]
  | c :: rest =>
    if c = sep then [] :: splitOnChar sep rest
    else
      match splitOnChar sep rest with
      | [] => [[c]]
      | p :: ps => (c :: p) :: ps

/-- JS String.prototype.indexOf for a single character (None for -1). -/
def idxOf (sep : Char) : List Char → Option Nat
  | [] => none
  | c :: rest =>
    if c = sep then some 0
    else (idxOf sep rest).map (· + 1)

/-- Array.prototype.join with a separator string. -/
def joinWith (sep : List Char) : List (List Char) → List Char
  | [] => []
  | [x] => x
  | x :: y :: rest => x ++ sep ++ joinWith sep (y :: rest)

/-- JS String.prototype.padEnd with spaces. -/
def padEnd (s : List Char) (w : Nat) : List Char :=
  s ++ List.replicate (w - s.length) ' '

-- ==========================================================================
-- Data model (classes Reference, Block, Document; type Value)
-- ==========================================================================

/-- class Reference { id: string; type?: string } -/
structure Reference where
  id : List Char
  type : Option (List Char)
deriving DecidableEq, Repr

/-- Reference.isRelationship:
`if (!this.type) return false;`
`return this.type === this.type.toUpperCase() && /^[A-Z_]+$/.test(this.type)` -/
def Reference.isRelationship (r : Reference) : Bool :=
  match r.type with
  | none => false
  | some t =>
    if t = [] then false
    else (t.map jsToUpperChar == t) && (!t.isEmpty && t.all isUpperUnd)

/-- Reference.getNamespace: undefined for relationship references. -/
def Reference.getNamespace (r : Reference) : Option (List Char) :=
  if r.isRelationship then none else r.type

/-- Reference.relationshipType: undefined for non-relationship references. -/
def Reference.relationshipType (r : Reference) : Option (List Char) :=
  if r.isRelationship then r.type else none

/-- Reference.toIson: `:type:id` when type is a non-empty string, else `:id`
(`if (this.type)` is false for undefined and for the empty string). -/
def Reference.toIson (r : Reference) : List Char :=
  match r.type with
  | some t => if t ≠ [] then ':' :: t ++ ':' :: r.id else ':' :: r.id
  | none => ':' :: r.id

/-- type Value = null | boolean | number | string | Reference.
JS numbers are split into the two shapes the parser actually builds:
parseInt results (int) and parseFloat results (float, exact decimal). -/
inductive Value where
  | null : Value
  | bool : Bool → Value
  | int : Int → Value
  | float : ℚ → Value
  | str : List Char → Value
  | ref : Reference → Value
deriving DecidableEq, Repr

/-- interface FieldInfo { name: string; type?: string; isComputed: boolean } -/
structure FieldInfo where
  name : List Char
  type : Option (List Char)
  isComputed : Bool
deriving DecidableEq, Repr

/-- type Row = Record<string, Value>: a JS object, modelled as an
insertion-ordered association list with unique keys (see rowSet). -/
abbrev Row : Type := List (List Char × Value)

/-- Assignment `row[k] = v` on a JS object: overwrites in place if the key
exists (keeping its position), else appends. -/
def rowSet (r : Row) (k : List Char) (v : Value) : Row :=
  if r.any (fun p => p.1 = k) then
    r.map (fun p => if p.1 = k then (k, v) else p)
  else r ++ [(k, v)]

/-- Property read `row[k]` (None models undefined). -/
def rowGet (r : Row) (k : List Char) : Option Value :=
  (r.find? (fun p => p.1 = k)).map (·.2)

instance : Inhabited Value := ⟨Value.null⟩

/-- class Block { kind; name; rows; fields; fieldInfo; summaryRows } -/
structure Block where
  kind : List Char
  name : List Char
  fields : List (List Char)
  fieldInfo : List FieldInfo
  rows : List Row
  summaryRows : List Row
deriving DecidableEq, Repr

/-- class Document { blocks: Block[] } -/
structure Document where
  blocks : List Block
deriving DecidableEq, Repr

/-- Document.getBlock: `this.blocks.find(b => b.name === name)`. -/
def Document.getBlock (d : Document) (name : List Char) : Option Block :=
  d.blocks.find? (fun b => b.name = name)

/-- Document.has: `this.blocks.some(b => b.name === name)`. -/
def Document.has (d : Document) (name : List Char) : Bool :=
  d.blocks.any (fun b => b.name = name)

-- ==========================================================================
-- Tokenizer (Parser.findCommentStart, parseQuotedString, tokenizeLine)
-- ==========================================================================

/-- Parser.findCommentStart combined with the `line.substring(0, idx)` cut in
tokenizeLine: returns the prefix of the line before the first unquoted `#`
(quote state toggles on `"` whose preceding character is not a backslash). -/
def stripComment : List Char → (prev : Option Char) → (inQuote : Bool) → List Char
  | [], _, _ => []
  | c :: rest, prev, inQuote =>
    if c = '"' && prev ≠ some '\\' then
      c :: stripComment rest (some c) (!inQuote)
    else if c = '#' && !inQuote then []
    else c :: stripComment rest (some c) inQuote

/-- The escape map of Parser.parseQuotedString's switch. -/
def escChar (c : Char) : Char :=
  if c = 'n' then '\n'
  else if c = 't' then '\t'
  else if c = 'r' then '\r'
  else c

/-- Parser.parseQuotedString, on the characters after the opening quote.
Returns (token text, rest after the closing quote); none models the thrown
ISONSyntaxError("Unterminated string").  Branch order follows the source:
backslash first (a lone trailing backslash appends a backslash and then
falls off the line, which is also unterminated), then the closing quote,
then ordinary characters. -/
def parseQuotedString : List Char → Option (List Char × List Char)
  | [] => none
  | c :: rest =>
    if c = '\\' then
      match rest with
      | [] => none
      | c2 :: rest2 => (parseQuotedString rest2).map (fun p => (escChar c2 :: p.1, p.2))
    else if c = '"' then some ([], rest)
    else (parseQuotedString rest).map (fun p => (c :: p.1, p.2))

/-- The main token loop of Parser.tokenizeLine, after comment stripping.
Fuel decreases by one per loop step; length + 1 is always enough. -/
def tokensAux : Nat → List Char → Except String (List (List Char))
  | _, [] => .ok []
  | 0, _ :: _ => .error ("out of fuel")
  | fuel + 1, c :: rest =>
    if isSepWs c then tokensAux fuel rest
    else if c = '"' then
      match parseQuotedString rest with
      | none => .error ("Unterminated string")
      | some (tok, r) => (tokensAux fuel r).map (tok :: ·)
    else
      (tokensAux fuel ((c :: rest).dropWhile (fun x => !isSepWs x))).map
        ((c :: rest).takeWhile (fun x => !isSepWs x) :: ·)

/-- Parser.tokenizeLine: strip the inline comment, then scan tokens. -/
def tokenizeLine (line : List Char) : Except String (List (List Char)) :=
  let stripped := stripComment line none false
  tokensAux (stripped.length + 1) stripped

-- ==========================================================================
-- Type inference (Parser.parseValue, Parser.parseReference)
-- ==========================================================================

/-- The JS regex /^-?\d+$/ used by Parser.parseValue. -/
def isIntPat (s : List Char) : Bool :=
  let s1 := if s.head? = some '-' then s.tail else s
  !s1.isEmpty && s1.all isDigitC

/-- The JS regex /^-?\d+\.\d+$/ used by Parser.parseValue: after the
optional minus, a non-empty digit run, then a dot, then a non-empty
all-digit remainder. -/
def isFloatPat (s : List Char) : Bool :=
  let s1 := if s.head? = some '-' then s.tail else s
  let b := s1.dropWhile isDigitC
  !(s1.takeWhile isDigitC).isEmpty &&
    b.head? == some '.' && !b.tail.isEmpty && b.tail.all isDigitC

/-- Digit-fold helper for parseInt/parseFloat on all-digit strings. -/
def digitsToNat (s : List Char) : Nat :=
  s.foldl (fun acc c => 10 * acc + (c.toNat - 48)) 0

/-- JS parseInt(token, 10) on a token matching /^-?\d+$/ (exact; the
float64 rounding beyond 2^53 is abstracted away). -/
def strToInt (s : List Char) : Int :=
  if s.head? = some '-' then -(digitsToNat s.tail : Int)
  else (digitsToNat s : Int)

/-- JS parseFloat on a token matching /^-?\d+\.\d+$/, as an exact rational
(IEEE rounding abstracted). -/
def strToRat (s : List Char) : ℚ :=
  let neg := s.head? = some '-'
  let s1 := if neg then s.tail else s
  let a := s1.takeWhile isDigitC
  let b := (s1.dropWhile isDigitC).drop 1
  let mag : ℚ := (digitsToNat (a ++ b) : ℚ) / (10 : ℚ) ^ b.length
  if neg then -mag else mag

/-- Parser.parseReference: strip the leading `:`, split the rest on `:`;
one part is a bare id, two parts build Reference(parts[1], parts[0]),
more parts throw ISONSyntaxError("Invalid reference"). -/
def parseReference (token : List Char) : Except String Value :=
  match splitOnChar ':' (token.drop 1) with
  | [p] => .ok (.ref ⟨p, none⟩)
  | [p1, p2] => .ok (.ref ⟨p2, some p1⟩)
  | _ => .error ("Invalid reference: " ++ String.mk token)

/-- Parser.parseValue: null / booleans / references / integer regex /
decimal regex / fallback string, in source order.  Note that the quoted
flag does not exist in this implementation: tokenizeLine returns plain
strings, so inference applies to quoted content as well. -/
def parseValue (token : List Char) : Except String Value :=
  if token = ['n', 'u', 'l', 'l'] || token = ['~'] then .ok .null
  else if token = ['t', 'r', 'u', 'e'] then .ok (.bool true)
  else if token = ['f', 'a', 'l', 's', 'e'] then .ok (.bool false)
  else if token.head? = some ':' then parseReference token
  else if isIntPat token then .ok (.int (strToInt token))
  else if isFloatPat token then .ok (.float (strToRat token))
  else .ok (.str token)

-- ==========================================================================
-- Line cursor (Parser.readLine / peekLine / skipWhitespaceAndComments /
-- skipEmptyLines)
-- ==========================================================================

/-- Parser.readLine: read up to the next newline (consuming it), returning
the trimmed line; none models the null returned at end of input.
peekLine is readLine without consuming, i.e. the first component here. -/
def readLine : List Char → Option (List Char × List Char)
  | [] => none
  | c :: rest =>
    let raw := (c :: rest).takeWhile (fun x => x ≠ '\n')
    let after := (c :: rest).dropWhile (fun x => x ≠ '\n')
    some (trim raw, match after with | [] => [] | _ :: r => r)

/-- Parser.skipWhitespaceAndComments, which is also exactly what
Parser.skipEmptyLines does: skip runs of space/tab/CR/LF and `#` comment
lines (a comment is skipped up to, not including, its newline, which the
whitespace branch then consumes).  Fuel decreases once per character
examined; length + 1 always suffices. -/
def skipBlanks : Nat → List Char → List Char
  | 0, s => s
  | _ + 1, [] => []
  | fuel + 1, c :: rest =>
    if isTrimWs c then skipBlanks fuel rest
    else if c = '#' then skipBlanks fuel (rest.dropWhile (fun x => x ≠ '\n'))
    else c :: rest

-- ==========================================================================
-- Block parser (Parser.parseBlock) and document loop (Parser.parse)
-- ==========================================================================

/-- The field-definition loop of Parser.parseBlock: each token is split on
its first `:` into name and type; isComputed iff the type is "computed". -/
def buildField (token : List Char) : FieldInfo :=
  match idxOf ':' token with
  | some i =>
    let fieldType := token.drop (i + 1)
    ⟨token.take i, some fieldType, fieldType = ['c', 'o', 'm', 'p', 'u', 't', 'e', 'd']⟩
  | none => ⟨token, none, false⟩

/-- The row-building loop of Parser.parseBlock:
`for (i = 0; i < fields.length && i < values.length; i++)
   row[fields[i]] = parseValue(values[i])`
(zip truncates to the same bound; parseValue can throw). -/
def buildRow : List (List Char × List Char) → Row → Except String Row
  | [], r => .ok r
  | (f, v) :: rest, r =>
    match parseValue v with
    | .error e => .error e
    | .ok val => buildRow rest (rowSet r f val)

/-- The /^[a-z]+\./ test that ends a block at the next header line. -/
def afterLetters : List Char → Bool
  | [] => false
  | c :: rest => if c = '.' then true else isLowerC c && afterLetters rest

/-- line.match(/^[a-z]+\./): one or more lower-case letters then a dot. -/
def startsHeader : List Char → Bool
  | [] => false
  | c :: rest => isLowerC c && afterLetters rest

/-- The data-row loop of Parser.parseBlock.  State: declared field names,
summary flag, accumulated rows and summaryRows, remaining input.  Returns
the accumulators and the unconsumed input (a new header line is left
unconsumed).  Fuel decreases once per loop iteration; each iteration that
recurses consumes at least one character, so length + 1 suffices. -/
def parseRows (fields : List (List Char)) :
    Nat → Bool → List Row → List Row → List Char →
    Except String (List Row × List Row × List Char)
  | _, _, rows, srows, [] => .ok (rows, srows, [])
  | 0, _, _, _, _ :: _ => .error ("out of fuel")
  | fuel + 1, inSummary, rows, srows, c :: rest =>
    match readLine (c :: rest) with
    | none => .ok (rows, srows, c :: rest)
    | some (l, s') =>
      if l = [] || startsHeader l then .ok (rows, srows, c :: rest)
      else if l.head? = some '#' then
        parseRows fields fuel inSummary rows srows s'
      else if trim l = ['-', '-', '-'] then
        parseRows fields fuel true rows srows s'
      else
        match tokenizeLine l with
        | .error e => .error e
        | .ok values =>
          if values = [] then .ok (rows, srows, s')
          else
            match buildRow (fields.zip values) [] with
            | .error e => .error e
            | .ok row =>
              if inSummary then parseRows fields fuel inSummary rows (srows ++ [row]) s'
              else parseRows fields fuel inSummary (rows ++ [row]) srows s'

/-- Parser.parseBlock: header line, field-definition line, data rows.
Returns (parsed block or null, remaining input).  `if (!headerLine ||
headerLine.startsWith("#")) return null`; a missing dot or an empty
kind/name throws ISONSyntaxError("Invalid block header"); end of input
after the header returns the block with no fields; `if (!fieldsLine)
return block` also covers an empty fields line. -/
def parseBlock (s : List Char) : Except String (Option Block × List Char) :=
  match readLine s with
  | none => .ok (none, [])
  | some (headerLine, s1) =>
    if headerLine = [] || headerLine.head? = some '#' then .ok (none, s1)
    else
      match idxOf '.' headerLine with
      | none => .error ("Invalid block header: " ++ String.mk headerLine)
      | some dotIndex =>
        let kind := trim (headerLine.take dotIndex)
        let name := trim (headerLine.drop (dotIndex + 1))
        if kind = [] || name = [] then
          .error ("Invalid block header: " ++ String.mk headerLine)
        else
          let s2 := skipBlanks (s1.length + 1) s1
          match readLine s2 with
          | none => .ok (some ⟨kind, name, [], [], [], []⟩, [])
          | some (fieldsLine, s3) =>
            if fieldsLine = [] then .ok (some ⟨kind, name, [], [], [], []⟩, s3)
            else
              match tokenizeLine fieldsLine with
              | .error e => .error e
              | .ok fieldTokens =>
                let fieldInfo := fieldTokens.map buildField
                let fields := fieldInfo.map (·.name)
                match parseRows fields (s3.length + 1) false [] [] s3 with
                | .error e => .error e
                | .ok (rows, srows, rest) =>
                  .ok (some ⟨kind, name, fields, fieldInfo, rows, srows⟩, rest)

/-- The while loop of Parser.parse: parseBlock, push the block if not null,
skip blanks, repeat.  Fuel decreases once per block; parseBlock always
consumes at least one character of a non-empty input, so length + 1
suffices. -/
def parseLoop : Nat → List Char → Except String (List Block)
  | _, [] => .ok []
  | 0, _ :: _ => .error ("out of fuel")
  | fuel + 1, c :: rest =>
    match parseBlock (c :: rest) with
    | .error e => .error e
    | .ok (b?, s') =>
      match parseLoop fuel (skipBlanks (s'.length + 1) s') with
      | .error e => .error e
      | .ok bs =>
        .ok (match b? with | some b => b :: bs | none => bs)

/-- Parser.parse / the exported parse(text) entry point. -/
def parse (text : List Char) : Except String Document :=
  let s := skipBlanks (text.length + 1) text
  match parseLoop (s.length + 1) s with
  | .error e => .error e
  | .ok bs => .ok ⟨bs⟩

-- ==========================================================================
-- Serializer
-- ==========================================================================

/-- The escape-and-quote arm of Serializer.serializeString: the sequential
replaces of backslash, quote, newline, tab, CR, written out in the same
order (each replace maps one character to an escape pair and touches
nothing the earlier replaces produced). -/
def escapeTS (s : List Char) : List Char :=
  let s1 := s.flatMap (fun c => if c = '\\' then ['\\', '\\'] else [c])
  let s2 := s1.flatMap (fun c => if c = '"' then ['\\', '"'] else [c])
  let s3 := s2.flatMap (fun c => if c = '\n' then ['\\', 'n'] else [c])
  let s4 := s3.flatMap (fun c => if c = '\t' then ['\\', 't'] else [c])
  s4.flatMap (fun c => if c = '\r' then ['\\', 'r'] else [c])

/-- The JS regex /^-?\d+(\.\d+)?$/ of Serializer.serializeString: after
the optional minus, a non-empty digit run, optionally followed by a dot
and a non-empty all-digit remainder. -/
def matchNumTS (s : List Char) : Bool :=
  let s1 := if s.head? = some '-' then s.tail else s
  let b := s1.dropWhile isDigitC
  !(s1.takeWhile isDigitC).isEmpty &&
    (b.isEmpty || (b.head? == some '.' && !b.tail.isEmpty && b.tail.all isDigitC))

/-- The needsQuotes condition of Serializer.serializeString, in source
order: space, tab, newline, quote, backslash, the literals true/false/null,
a leading colon, or the number regex.  Note: no check for the empty
string. -/
def needsQuotes (s : List Char) : Bool :=
  s.contains ' ' || s.contains '\t' || s.contains '\n' || s.contains '"' ||
  s.contains '\\' ||
  s = ['t', 'r', 'u', 'e'] || s = ['f', 'a', 'l', 's', 'e'] ||
  s = ['n', 'u', 'l', 'l'] || s.head? = some ':' || matchNumTS s

/-- Serializer.serializeString. -/
def serializeString (s : List Char) : List Char :=
  if needsQuotes s then '"' :: escapeTS s ++ ['"'] else s

/-- Int toString, matching the JS rendering of safe-integer numbers. -/
def intToChars (n : Int) : List Char := (toString n).data

/-- JS Number.prototype.toString for the exact-decimal rationals built by
strToRat: sign, integer part, and, when the value is not an integer, a dot
and the (finite) decimal fraction digits.  The fuel bounds the fraction
length; parseFloat-produced values always have a power-of-ten denominator
so the loop is exact for them. -/
def fracDigits : Nat → Nat → Nat → List Char
  | 0, _, _ => []
  | _ + 1, _, 0 => []
  | fuel + 1, den, num =>
    let num10 := num * 10
    Char.ofNat (48 + num10 / den) :: fracDigits fuel den (num10 % den)

/-- Rendering of a float Value (see fracDigits). -/
def floatToChars (q : ℚ) : List Char :=
  let sign : List Char := if q < 0 then ['-'] else []
  let n := q.num.natAbs
  let d := q.den
  let ip := (toString (n / d)).data
  let rest := n % d
  if rest = 0 then sign ++ ip
  else sign ++ ip ++ '.' :: fracDigits 64 d rest

/-- Serializer.serializeValue; the argument is row[field], so undefined
(None) renders as "null" like null itself. -/
def serializeValue : Option Value → List Char
  | none => ['n', 'u', 'l', 'l']
  | some .null => ['n', 'u', 'l', 'l']
  | some (.bool b) => if b then ['t', 'r', 'u', 'e'] else ['f', 'a', 'l', 's', 'e']
  | some (.int n) => intToChars n
  | some (.float q) => floatToChars q
  | some (.ref r) => r.toIson
  | some (.str s) => serializeString s

/-- Serializer.calculateWidths: per column, the max of the field-name
length and every rendered row/summary value in that column. -/
def calculateWidths (b : Block) : List Nat :=
  (b.rows ++ b.summaryRows).foldl
    (fun widths row =>
      (widths.zip b.fields).map (fun (w, f) => max w (serializeValue (rowGet row f)).length))
    (b.fields.map (·.length))

/-- Serializer.serializeRow: render each declared field, pad all but the
last column when aligning, join with single spaces. -/
def serializeRow (row : Row) (fields : List (List Char)) (widths : List Nat)
    (alignColumns : Bool) : List Char :=
  joinWith [' ']
    ((List.range fields.length).map (fun i =>
      let str := serializeValue (rowGet row (fields.getD i []))
      if alignColumns && widths ≠ [] && i < fields.length - 1 then
        padEnd str (widths.getD i 0)
      else str))

/-- Serializer.serializeBlock: header, field definitions (name:type when a
non-empty type is present), data rows, then `---` and the summary rows when
any exist; lines joined by newlines. -/
def serializeBlock (b : Block) (alignColumns : Bool) : List Char :=
  let fieldDefs := b.fieldInfo.map (fun fi =>
    match fi.type with
    | some t => if t ≠ [] then fi.name ++ ':' :: t else fi.name
    | none => fi.name)
  let widths := if alignColumns then calculateWidths b else []
  let lines :=
    (b.kind ++ '.' :: b.name) ::
    joinWith [' '] fieldDefs ::
    b.rows.map (fun r => serializeRow r b.fields widths alignColumns) ++
    (if b.summaryRows ≠ [] then
      ['-', '-', '-'] :: b.summaryRows.map (fun r => serializeRow r b.fields widths alignColumns)
     else [])
  joinWith ['\n'] lines

/-- Serializer.serialize / the exported dumps(doc, alignColumns = true):
blocks joined by blank lines. -/
def dumps (doc : Document) (alignColumns : Bool) : List Char :=
  joinWith ['\n', '\n'] (doc.blocks.map (fun b => serializeBlock b alignColumns))

-- ==========================================================================
-- ISONL (class ISONLParser, class ISONLSerializer)
-- ==========================================================================

/-- The quoted-string scan of ISONLParser.tokenizeValues: unlike
Parser.parseQuotedString it cannot fail - reaching the end of the line
simply ends the token with the characters read so far. -/
def isonlQString : List Char → List Char × List Char
  | [] => ([], [])
  | c :: rest =>
    if c = '"' then ([], rest)
    else if c = '\\' then
      match rest with
      | [] => (['\\'], [])
      | c2 :: rest2 =>
        let p := isonlQString rest2
        (escChar c2 :: p.1, p.2)
    else
      let p := isonlQString rest
      (c :: p.1, p.2)

/-- ISONLParser.tokenizeValues: whitespace-separated tokens with the
non-failing quoted scan.  Fuel: one unit per loop step, length + 1
suffices. -/
def tokenizeValuesAux : Nat → List Char → List (List Char)
  | _, [] => []
  | 0, _ :: _ => []
  | fuel + 1, c :: rest =>
    if isSepWs c then tokenizeValuesAux fuel rest
    else if c = '"' then
      let p := isonlQString rest
      p.1 :: tokenizeValuesAux fuel p.2
    else
      (c :: rest).takeWhile (fun x => !isSepWs x) ::
        tokenizeValuesAux fuel ((c :: rest).dropWhile (fun x => !isSepWs x))

/-- ISONLParser.tokenizeValues entry point. -/
def tokenizeValues (line : List Char) : List (List Char) :=
  tokenizeValuesAux (line.length + 1) line

/-- ISONLParser.parseValue: like Parser.parseValue but total - a reference
with three or more parts builds Reference(parts[1], parts[0]) instead of
throwing. -/
def isonlParseValue (token : List Char) : Value :=
  if token = ['n', 'u', 'l', 'l'] || token = ['~'] then .null
  else if token = ['t', 'r', 'u', 'e'] then .bool true
  else if token = ['f', 'a', 'l', 's', 'e'] then .bool false
  else if token.head? = some ':' then
    match splitOnChar ':' (token.drop 1) with
    | [p] => .ref ⟨p, none⟩
    | p0 :: p1 :: _ => .ref ⟨p1, some p0⟩
    | [] => .ref ⟨[], none⟩
  else if isIntPat token then .int (strToInt token)
  else if isFloatPat token then .float (strToRat token)
  else .str token

/-- The JS regex class \s for fieldsPart.trim().split(/\s+/) (ASCII part). -/
def isJsWs (c : Char) : Bool :=
  c = ' ' || c = '\t' || c = '\r' || c = '\n' || c.toNat = 11 || c.toNat = 12

/-- "a b".split(/\s+/) on an already-trimmed non-empty string: maximal
runs of non-whitespace (isonlFields handles the empty string, which JS
splits into [""]). -/
def splitWsRuns : Nat → List Char → List (List Char)
  | _, [] => []
  | 0, s => [s]
  | fuel + 1, c :: rest =>
    if isJsWs c then splitWsRuns fuel (rest.dropWhile isJsWs)
    else
      ((c :: rest).takeWhile (fun x => !isJsWs x)) ::
        splitWsRuns fuel ((c :: rest).dropWhile (fun x => !isJsWs x))

/-- The ISONL field-definition parsing for a new block key (same `:` split
as the block parser). -/
def isonlFields (fieldsPart : List Char) : List FieldInfo :=
  let t := trim fieldsPart
  if t = [] then [buildField []]
  else (splitWsRuns (t.length + 1) t).map buildField

/-- The per-line body of ISONLParser.parse, threading the ordered block
list (the Map and doc.blocks always hold the same Block objects, so one
list keyed by kind and name suffices; keys are unique because a block is
only appended when its key is absent). -/
def isonlLine (blocks : List Block) (line : List Char) : Except String (List Block) :=
  let trimmed := trim line
  if trimmed = [] || trimmed.head? = some '#' then .ok blocks
  else
    match splitOnChar '|' trimmed with
    | [header, fieldsPart, valuesPart] =>
      (match idxOf '.' header with
       | none => .error ("Invalid ISONL header: " ++ String.mk header)
       | some dotIndex =>
         let kind := header.take dotIndex
         let name := header.drop (dotIndex + 1)
         let blocks1 :=
           if blocks.any (fun b => b.kind = kind && b.name = name) then blocks
           else
             let fieldInfo := isonlFields fieldsPart
             blocks ++ [⟨kind, name, fieldInfo.map (·.name), fieldInfo, [], []⟩]
         let row := fun (fields : List (List Char)) =>
           (fields.zip (tokenizeValues valuesPart)).foldl
             (fun r (fv : List Char × List Char) => rowSet r fv.1 (isonlParseValue fv.2)) []
         .ok (blocks1.map (fun b =>
           if b.kind = kind && b.name = name then
             { b with rows := b.rows ++ [row b.fields] }
           else b)))
    | _ => .error ("Invalid ISONL line: " ++ String.mk line)

/-- The line loop of ISONLParser.parse. -/
def isonlLines : List (List Char) → List Block → Except String (List Block)
  | [], blocks => .ok blocks
  | line :: rest, blocks =>
    match isonlLine blocks line with
    | .error e => .error e
    | .ok blocks' => isonlLines rest blocks'

/-- ISONLParser.parse / the exported loadsIsonl(text). -/
def loadsIsonl (text : List Char) : Except String Document :=
  match isonlLines (splitOnChar '\n' text) [] with
  | .error e => .error e
  | .ok blocks => .ok ⟨blocks⟩

/-- The string arm of ISONLSerializer.serializeValue: quotes also on `|`,
and its escape chain stops at tab (no CR escape). -/
def isonlSerializeString (s : List Char) : List Char :=
  if s.contains ' ' || s.contains '\t' || s.contains '|' || s.contains '\n' ||
     s.contains '"' ||
     s = ['t', 'r', 'u', 'e'] || s = ['f', 'a', 'l', 's', 'e'] ||
     s = ['n', 'u', 'l', 'l'] || s.head? = some ':' || matchNumTS s then
    let s1 := s.flatMap (fun c => if c = '\\' then ['\\', '\\'] else [c])
    let s2 := s1.flatMap (fun c => if c = '"' then ['\\', '"'] else [c])
    let s3 := s2.flatMap (fun c => if c = '\n' then ['\\', 'n'] else [c])
    '"' :: s3.flatMap (fun c => if c = '\t' then ['\\', 't'] else [c]) ++ ['"']
  else s

/-- ISONLSerializer.serializeValue. -/
def isonlSerializeValue : Option Value → List Char
  | none => ['n', 'u', 'l', 'l']
  | some .null => ['n', 'u', 'l', 'l']
  | some (.bool b) => if b then ['t', 'r', 'u', 'e'] else ['f', 'a', 'l', 's', 'e']
  | some (.int n) => intToChars n
  | some (.float q) => floatToChars q
  | some (.ref r) => r.toIson
  | some (.str s) => isonlSerializeString s

/-- ISONLSerializer.serialize / the exported dumpsIsonl(doc): one
`kind.name|fields|values` line per data row. -/
def dumpsIsonl (doc : Document) : List Char :=
  joinWith ['\n']
    (doc.blocks.flatMap (fun b =>
      let header := b.kind ++ '.' :: b.name
      let fieldsPart := joinWith [' ']
        (b.fieldInfo.map (fun fi =>
          match fi.type with
          | some t => if t ≠ [] then fi.name ++ ':' :: t else fi.name
          | none => fi.name))
      b.rows.map (fun r =>
        header ++ '|' :: fieldsPart ++ '|' ::
          joinWith [' '] (b.fields.map (fun f => isonlSerializeValue (rowGet r f))))))

-- ==========================================================================
-- Spec-side predicates (definitions written from the specification's words,
-- for comparison against the code-side definitions above)
-- ==========================================================================

/-- The quoting predicate exactly as the specification states it for the
block serializer: contains a space, tab, double-quote, or newline; equals
true/false/null; starts with a colon; is empty; or matches the type
inferencer's integer/decimal patterns.  (No backslash clause.)  Compared
against the code's needsQuotes. -/
def claimQuotePred (s : List Char) : Bool :=
  s.contains ' ' || s.contains '\t' || s.contains '"' || s.contains '\n' ||
  s = ['t', 'r', 'u', 'e'] || s = ['f', 'a', 'l', 's', 'e'] ||
  s = ['n', 'u', 'l', 'l'] || s.head? = some ':' || s.isEmpty ||
  isIntPat s || isFloatPat s

/-- The amended quoting predicate: the code also quotes on a backslash and
does not quote the empty string. -/
def amendedQuotePred (s : List Char) : Bool :=
  s.contains ' ' || s.contains '\t' || s.contains '"' || s.contains '\n' ||
  s.contains '\\' ||
  s = ['t', 'r', 'u', 'e'] || s = ['f', 'a', 'l', 's', 'e'] ||
  s = ['n', 'u', 'l', 'l'] || s.head? = some ':' ||
  isIntPat s || isFloatPat s

/-- States of the specification's description of tokenizing a line:
between tokens, inside an unquoted token, inside a quoted string, and
inside a quoted string right after a backslash. -/
inductive ScanSt where
  | outside : ScanSt
  | inTok : ScanSt
  | inStr : ScanSt
  | esc : ScanSt
deriving DecidableEq

/-- The specification's notion of "a double quote is opened and the line
ends before a matching unescaped closing quote is found", as a direct
left-to-right scan: a quote opens a string only at a token start; inside a
string a backslash escapes the next character; the scan fails exactly when
the line ends inside a string (or right after a backslash). -/
def specUnterm : List Char → ScanSt → Bool
  | [], st => st = .inStr || st = .esc
  | c :: r, .outside =>
    if isSepWs c then specUnterm r .outside
    else if c = '"' then specUnterm r .inStr
    else specUnterm r .inTok
  | c :: r, .inTok =>
    if isSepWs c then specUnterm r .outside else specUnterm r .inTok
  | c :: r, .inStr =>
    if c = '\\' then specUnterm r .esc
    else if c = '"' then specUnterm r .outside
    else specUnterm r .inStr
  | _ :: r, .esc => specUnterm r .inStr

-- ==========================================================================
-- Theorems: shared helper lemmas
-- ==========================================================================

theorem find_first {α} (p : α → Bool) :
    ∀ (l : List α) (b : α), l.find? p = some b →
      ∃ l1 l2, l = l1 ++ b :: l2 ∧ p b = true ∧ ∀ x ∈ l1, p x = false := by
  intro l
  induction l with
  | nil => intro b h; simp [List.find?] at h
  | cons a t ih =>
    intro b h
    rw [List.find?] at h
    cases hp : p a with
    | true =>
      rw [hp] at h
      simp at h
      subst h
      exact ⟨[], t, rfl, hp, by simp⟩
    | false =>
      rw [hp] at h
      simp at h
      obtain ⟨l1, l2, heq, hb, hall⟩ := ih b h
      exact ⟨a :: l1, l2, by simp [heq], hb, by
        intro x hx
        rcases List.mem_cons.1 hx with h1 | h1
        · exact h1 ▸ hp
        · exact hall x h1⟩

theorem splitOnChar_append (sep : Char) :
    ∀ (X id : List Char), sep ∉ X →
      splitOnChar sep (X ++ sep :: id) = X :: splitOnChar sep id := by
  intro X id hX
  induction X with
  | nil => simp [splitOnChar]
  | cons c X' ih =>
    have hc : c ≠ sep := by intro h; exact hX (h ▸ List.mem_cons_self c X')
    have hX' : sep ∉ X' := fun h => hX (List.mem_cons_of_mem c h)
    simp only [List.cons_append, splitOnChar, if_neg hc, List.append_eq, ih hX']

theorem splitOnChar_no_sep (sep : Char) :
    ∀ (id : List Char), sep ∉ id → splitOnChar sep id = [id] := by
  intro id hid
  induction id with
  | nil => simp [splitOnChar]
  | cons c r ih =>
    have hc : c ≠ sep := by intro h; exact hid (h ▸ List.mem_cons_self c r)
    have hr : sep ∉ r := fun h => hid (List.mem_cons_of_mem c h)
    simp only [splitOnChar, if_neg hc, ih hr]

theorem jsToUpper_fix {c : Char} (h : isUpperUnd c = true) : jsToUpperChar c = c := by
  unfold jsToUpperChar isLowerC
  unfold isUpperUnd at h
  simp only [Bool.or_eq_true, Bool.and_eq_true, decide_eq_true_eq] at h
  rcases h with ⟨h1, h2⟩ | h1
  · rw [if_neg]; simp only [Bool.and_eq_true, decide_eq_true_eq, not_and]; omega
  · subst h1; rfl

theorem map_jsToUpper_fix {X : List Char} (h : ∀ c ∈ X, isUpperUnd c = true) :
    X.map jsToUpperChar = X := by
  induction X with
  | nil => rfl
  | cons c r ih =>
    simp only [List.map_cons]
    rw [jsToUpper_fix (h c (List.mem_cons_self c r)),
      ih (fun x hx => h x (List.mem_cons_of_mem c hx))]

theorem isRelationship_iff (id : List Char) (X : List Char) :
    (Reference.mk id (some X)).isRelationship = true ↔
      X ≠ [] ∧ ∀ c ∈ X, isUpperUnd c = true := by
  unfold Reference.isRelationship
  constructor
  · intro h
    simp only at h
    split at h
    · exact absurd h (by simp)
    · rename_i hne
      simp only [Bool.and_eq_true, List.all_eq_true] at h
      exact ⟨hne, h.2.2⟩
  · rintro ⟨hne, hall⟩
    simp only
    rw [if_neg hne, map_jsToUpper_fix hall]
    simp only [beq_self_eq_true, Bool.true_and, Bool.and_eq_true, List.all_eq_true,
      Bool.not_eq_true]
    exact ⟨by simp [hne], hall⟩

theorem ref_exclusive (r : Reference) :
    r.getNamespace = none ∨ r.relationshipType = none := by
  unfold Reference.getNamespace Reference.relationshipType
  cases h : r.isRelationship <;> simp

theorem length_dropWhile_le' (p : Char → Bool) (l : List Char) :
    (l.dropWhile p).length ≤ l.length := by
  induction l with
  | nil => simp
  | cons c r ih =>
    rw [List.dropWhile]
    cases p c with
    | true => simp only; exact Nat.le_trans ih (by simp)
    | false => simp

theorem matchNum_eq (s : List Char) : matchNumTS s = (isIntPat s || isFloatPat s) := by
  unfold matchNumTS isIntPat isFloatPat
  simp only
  set s1 := if s.head? = some '-' then s.tail else s with hs1
  have hsplit := List.takeWhile_append_dropWhile isDigitC s1
  cases hb : s1.dropWhile isDigitC with
  | nil =>
    have ha : s1.takeWhile isDigitC = s1 := by
      have h2 := hsplit
      rw [hb, List.append_nil] at h2
      exact h2
    have hall : s1.all isDigitC = true := by
      rw [List.all_eq_true]
      exact List.dropWhile_eq_nil_iff.1 hb
    rw [ha, hall]
    cases s1.isEmpty <;> simp
  | cons c rest =>
    have hnotall : s1.all isDigitC = false := by
      cases h : s1.all isDigitC with
      | false => rfl
      | true =>
        rw [List.all_eq_true] at h
        rw [List.dropWhile_eq_nil_iff.2 h] at hb
        cases hb
    rw [hnotall]
    simp only [List.isEmpty_cons, Bool.false_or, Bool.and_false, Bool.false_and]
    cases (!(s1.takeWhile isDigitC).isEmpty) <;> simp

theorem needsQuotes_eq (s : List Char) : needsQuotes s = amendedQuotePred s := by
  unfold needsQuotes amendedQuotePred
  rw [matchNum_eq]
  cases s.contains ' ' <;> cases s.contains '\t' <;> cases (s.contains '"') <;>
    cases s.contains '\n' <;> cases s.contains '\\' <;> simp [Bool.or_assoc]

theorem exceptMap_error {α β : Type} (g : α → β) (x : Except String α) (e : String) :
    (x.map g = .error e) ↔ x = .error e := by
  cases x <;> simp [Except.map]

theorem pqs_spec : ∀ n (s : List Char), s.length ≤ n →
    (parseQuotedString s = none → specUnterm s .inStr = true) ∧
    (∀ t r, parseQuotedString s = some (t, r) →
      specUnterm s .inStr = specUnterm r .outside ∧ r.length < s.length) := by
  intro n
  induction n with
  | zero =>
    intro s hs
    have : s = [] := List.eq_nil_of_length_eq_zero (Nat.le_zero.1 hs)
    subst this
    exact ⟨fun _ => rfl, fun t r h => by cases h⟩
  | succ n ih =>
    intro s hs
    cases s with
    | nil => exact ⟨fun _ => rfl, fun t r h => by cases h⟩
    | cons c rest =>
      by_cases hbs : c = '\\'
      · subst hbs
        cases rest with
        | nil =>
          refine ⟨fun _ => rfl, fun t r h => ?_⟩
          cases h
        | cons c2 rest2 =>
          have hred : parseQuotedString ('\\' :: c2 :: rest2) =
              (parseQuotedString rest2).map (fun p => (escChar c2 :: p.1, p.2)) := rfl
          have hlen : rest2.length ≤ n := by simp at hs; omega
          have spec_eq : specUnterm ('\\' :: c2 :: rest2) .inStr =
              specUnterm rest2 .inStr := rfl
          constructor
          · intro h
            rw [hred, Option.map_eq_none'] at h
            rw [spec_eq]
            exact (ih rest2 hlen).1 h
          · intro t r h
            rw [hred, Option.map_eq_some'] at h
            obtain ⟨⟨t', r'⟩, hp, heq⟩ := h
            cases heq
            have := (ih rest2 hlen).2 t' r' hp
            rw [spec_eq]
            exact ⟨this.1, by simp; omega⟩
      · by_cases hq : c = '"'
        · subst hq
          have hred : parseQuotedString ('"' :: rest) = some ([], rest) := by
            unfold parseQuotedString
            rw [if_neg (by decide), if_pos rfl]
          constructor
          · intro h
            rw [hred] at h
            cases h
          · intro t r h
            rw [hred] at h
            cases h
            exact ⟨rfl, by simp⟩
        · have hlen : rest.length ≤ n := by simp at hs; omega
          have hred : parseQuotedString (c :: rest) =
              (parseQuotedString rest).map (fun p => (c :: p.1, p.2)) := by
            unfold parseQuotedString
            rw [if_neg hbs, if_neg hq, ← parseQuotedString.eq_def]
          have spec_eq : specUnterm (c :: rest) .inStr = specUnterm rest .inStr := by
            show (if c = '\\' then specUnterm rest .esc
              else if c = '"' then specUnterm rest .outside
              else specUnterm rest .inStr) = specUnterm rest .inStr
            rw [if_neg hbs, if_neg hq]
          constructor
          · intro h
            rw [hred, Option.map_eq_none'] at h
            rw [spec_eq]
            exact (ih rest hlen).1 h
          · intro t r h
            rw [hred, Option.map_eq_some'] at h
            obtain ⟨⟨t', r'⟩, hp, heq⟩ := h
            cases heq
            have := (ih rest hlen).2 t' r' hp
            rw [spec_eq]
            exact ⟨this.1, by simp; omega⟩

theorem inTok_drop : ∀ s : List Char,
    specUnterm s .inTok = specUnterm (s.dropWhile (fun x => !isSepWs x)) .outside := by
  intro s
  induction s with
  | nil => rfl
  | cons c r ih =>
    cases hsep : isSepWs c with
    | true =>
      have h1 : specUnterm (c :: r) .inTok = specUnterm r .outside := by
        show (if isSepWs c then specUnterm r .outside else specUnterm r .inTok) = _
        rw [if_pos hsep]
      have h2 : (c :: r).dropWhile (fun x => !isSepWs x) = c :: r := by
        rw [List.dropWhile_cons]
        simp [hsep]
      rw [h1, h2]
      show _ = (if isSepWs c then specUnterm r .outside else
        if c = '"' then specUnterm r .inStr else specUnterm r .inTok)
      rw [if_pos hsep]
    | false =>
      have h1 : specUnterm (c :: r) .inTok = specUnterm r .inTok := by
        show (if isSepWs c then specUnterm r .outside else specUnterm r .inTok) = _
        rw [if_neg (by simp [hsep])]
      have h2 : (c :: r).dropWhile (fun x => !isSepWs x) = r.dropWhile (fun x => !isSepWs x) := by
        rw [List.dropWhile_cons]
        simp [hsep]
      rw [h1, h2, ih]

theorem tokensAux_iff : ∀ fuel (s : List Char), s.length < fuel →
    (tokensAux fuel s = .error ("Unterminated string") ↔
      specUnterm s .outside = true) := by
  intro fuel
  induction fuel with
  | zero => intro s hs; omega
  | succ f ih =>
    intro s hs
    cases s with
    | nil =>
      constructor
      · intro h; cases h
      · intro h; cases h
    | cons c rest =>
      have hrest : rest.length < f := by simp at hs; omega
      by_cases hsep : isSepWs c = true
      · have hred : tokensAux (f + 1) (c :: rest) = tokensAux f rest := by
          unfold tokensAux
          rw [if_pos hsep, ← tokensAux.eq_def]
        have hspec : specUnterm (c :: rest) .outside = specUnterm rest .outside := by
          show (if isSepWs c then specUnterm rest .outside else
            if c = '"' then specUnterm rest .inStr else specUnterm rest .inTok) = _
          rw [if_pos hsep]
        rw [hred, hspec]
        exact ih rest hrest
      · by_cases hq : c = '"'
        · subst hq
          have hspec : specUnterm ('"' :: rest) .outside = specUnterm rest .inStr := by
            show (if isSepWs '"' then specUnterm rest .outside else
              if '"' = '"' then specUnterm rest .inStr else specUnterm rest .inTok) = _
            rw [if_neg (by decide), if_pos rfl]
          rw [hspec]
          cases hp : parseQuotedString rest with
          | none =>
            have hred : tokensAux (f + 1) ('"' :: rest) = .error ("Unterminated string") := by
              unfold tokensAux
              rw [if_neg (by decide), if_pos rfl, hp]
            rw [hred]
            have := (pqs_spec rest.length rest (Nat.le_refl _)).1 hp
            simp [this]
          | some p =>
            obtain ⟨t, r⟩ := p
            have hps := (pqs_spec rest.length rest (Nat.le_refl _)).2 t r hp
            have hred : tokensAux (f + 1) ('"' :: rest) = (tokensAux f r).map (t :: ·) := by
              unfold tokensAux
              rw [if_neg (by decide), if_pos rfl, hp, ← tokensAux.eq_def]
            rw [hred, hps.1, exceptMap_error]
            exact ih r (by omega)
        · have hred : tokensAux (f + 1) (c :: rest) =
              (tokensAux f ((c :: rest).dropWhile (fun x => !isSepWs x))).map
                ((c :: rest).takeWhile (fun x => !isSepWs x) :: ·) := by
            unfold tokensAux
            rw [if_neg hsep, if_neg hq, ← tokensAux.eq_def]
          have hspec : specUnterm (c :: rest) .outside = specUnterm rest .inTok := by
            show (if isSepWs c then specUnterm rest .outside else
              if c = '"' then specUnterm rest .inStr else specUnterm rest .inTok) = _
            rw [if_neg hsep, if_neg hq]
          have hdrop : (c :: rest).dropWhile (fun x => !isSepWs x) =
              rest.dropWhile (fun x => !isSepWs x) := by
            rw [List.dropWhile_cons]
            simp [hsep]
          have hdlen : (rest.dropWhile (fun x => !isSepWs x)).length < f :=
            Nat.lt_of_le_of_lt (length_dropWhile_le' _ rest) hrest
          rw [hred, hdrop, exceptMap_error, hspec, inTok_drop rest]
          exact ih _ hdlen

theorem isonlQString_all : ∀ s : List Char, '"' ∉ s → '\\' ∉ s →
    isonlQString s = (s, []) := by
  intro s
  induction s with
  | nil => intro _ _; rfl
  | cons c rest ih =>
    intro hq hbs
    have hcq : c ≠ '"' := fun h => hq (h ▸ List.mem_cons_self c rest)
    have hcb : c ≠ '\\' := fun h => hbs (h ▸ List.mem_cons_self c rest)
    have hrq : '"' ∉ rest := fun h => hq (List.mem_cons_of_mem c h)
    have hrb : '\\' ∉ rest := fun h => hbs (List.mem_cons_of_mem c h)
    rw [isonlQString.eq_def]
    simp [hcq, hcb, ih hrq hrb]

theorem parseRows_summary_keeps_rows :
    ∀ (fields : List (List Char)) (fuel : Nat) (rows srows : List Row) (s : List Char)
      (rez : List Row × List Row × List Char),
      parseRows fields fuel true rows srows s = .ok rez → rez.1 = rows := by
  intro fields fuel
  induction fuel with
  | zero =>
    intro rows srows s rez h
    cases s with
    | nil =>
      rw [parseRows] at h
      cases h
      rfl
    | cons c rest =>
      rw [parseRows] at h
      cases h
  | succ fuel ih =>
    intro rows srows s rez h
    cases s with
    | nil =>
      rw [parseRows] at h
      cases h
      rfl
    | cons c rest =>
      rw [parseRows.eq_def] at h
      simp only at h
      split at h
      · cases h; rfl
      · split at h
        · cases h; rfl
        · split at h
          · exact ih _ _ _ _ h
          · split at h
            · exact ih _ _ _ _ h
            · split at h
              · cases h
              · split at h
                · cases h; rfl
                · split at h
                  · cases h
                  · exact ih _ _ _ _ h

theorem lower_not_ws {c : Char} (h : isLowerC c = true) : isTrimWs c = false := by
  cases hw : isTrimWs c with
  | false => rfl
  | true =>
    exfalso
    unfold isTrimWs at hw
    simp only [Bool.or_eq_true, decide_eq_true_eq] at hw
    rcases hw with ((h1 | h1) | h1) | h1 <;> subst h1 <;> exact absurd h (by decide)

theorem lower_ne {c : Char} (h : isLowerC c = true) {d : Char}
    (hd : isLowerC d = false) : c ≠ d := by
  intro heq
  subst heq
  rw [h] at hd
  cases hd

theorem dropWhile_noop {p : Char → Bool} {s : List Char}
    (h : ∀ x ∈ s, p x = false) : s.dropWhile p = s := by
  cases s with
  | nil => rfl
  | cons c rest =>
    rw [List.dropWhile_cons, h c (List.mem_cons_self c rest)]
    simp

theorem trim_noop {s : List Char} (h : ∀ x ∈ s, isTrimWs x = false) : trim s = s := by
  unfold trim
  rw [dropWhile_noop h, dropWhile_noop (by
    intro x hx
    exact h x (List.mem_reverse.1 hx)), List.reverse_reverse]

theorem readLine_no_newline {c : Char} {rest : List Char}
    (h : ∀ x ∈ (c :: rest), x ≠ '\n') :
    readLine (c :: rest) = some (trim (c :: rest), []) := by
  have h1 : (c :: rest).takeWhile (fun x => x ≠ '\n') = c :: rest :=
    List.takeWhile_eq_self_iff.2 (by
      intro x hx
      simp [h x hx])
  have h2 : (c :: rest).dropWhile (fun x => x ≠ '\n') = [] :=
    List.dropWhile_eq_nil_iff.2 (by
      intro x hx
      simp [h x hx])
  unfold readLine
  simp only [h1, h2]

theorem idxOf_append :
    ∀ (k n : List Char), '.' ∉ k → idxOf '.' (k ++ '.' :: n) = some k.length := by
  intro k n hk
  induction k with
  | nil => rfl
  | cons c k' ih =>
    have hc : c ≠ '.' := fun h => hk (h ▸ List.mem_cons_self c k')
    have hk' : '.' ∉ k' := fun h => hk (List.mem_cons_of_mem c h)
    rw [List.cons_append, idxOf, if_neg hc, ih hk']
    rfl

theorem skipBlanks_noop {fuel : Nat} {c : Char} {rest : List Char}
    (h1 : isTrimWs c = false) (h2 : c ≠ '#') :
    skipBlanks fuel (c :: rest) = c :: rest := by
  cases fuel with
  | zero => rfl
  | succ f =>
    rw [skipBlanks]
    rw [if_neg (by simp [h1]), if_neg h2]

theorem parseBlock_header_only {c : Char} {k' name : List Char}
    (hlk : ∀ x ∈ (c :: k'), isLowerC x = true)
    (hln : ∀ x ∈ name, isLowerC x = true)
    (hn : name ≠ []) :
    parseBlock (c :: (k' ++ '.' :: name)) =
      .ok (some ⟨c :: k', name, [], [], [], []⟩, []) := by
  have hmem : ∀ x ∈ c :: (k' ++ '.' :: name), x = '.' ∨ isLowerC x = true := by
    intro x hx
    rcases List.mem_cons.1 hx with h | h
    · exact Or.inr (h ▸ hlk c (List.mem_cons_self c k'))
    · rcases List.mem_append.1 h with h | h
      · exact Or.inr (hlk x (List.mem_cons_of_mem c h))
      · rcases List.mem_cons.1 h with h | h
        · exact Or.inl h
        · exact Or.inr (hln x h)
  have hnonl : ∀ x ∈ c :: (k' ++ '.' :: name), x ≠ '\n' := by
    intro x hx
    rcases hmem x hx with h | h
    · subst h; decide
    · exact lower_ne h (by decide)
  have hnows : ∀ x ∈ c :: (k' ++ '.' :: name), isTrimWs x = false := by
    intro x hx
    rcases hmem x hx with h | h
    · subst h; decide
    · exact lower_not_ws h
  have hkmem : '.' ∉ (c :: k') := by
    intro hdot
    have := hlk '.' hdot
    exact absurd this (by decide)
  have hread : readLine (c :: (k' ++ '.' :: name)) =
      some (c :: (k' ++ '.' :: name), []) := by
    rw [readLine_no_newline hnonl, trim_noop hnows]
  unfold parseBlock
  rw [hread]
  simp only
  rw [if_neg (by
    simp only [Bool.or_eq_true, decide_eq_true_eq]
    rintro (h | h)
    · cases h
    · have hc := hlk c (List.mem_cons_self c k')
      simp only [List.head?_cons, Option.some.injEq] at h
      exact absurd (h ▸ hc) (by decide))]
  rw [show c :: (k' ++ '.' :: name) = (c :: k') ++ '.' :: name from rfl]
  rw [idxOf_append (c :: k') name hkmem]
  simp only
  rw [List.take_left (c :: k') ('.' :: name)]
  rw [← List.drop_drop, List.drop_left (c :: k') ('.' :: name)]
  simp only [List.drop_one, List.tail_cons]
  rw [trim_noop (by
    intro x hx
    exact lower_not_ws (hlk x hx))]
  rw [trim_noop (by
    intro x hx
    exact lower_not_ws (hln x hx))]
  rw [if_neg (by
    simp only [Bool.or_eq_true, decide_eq_true_eq]
    rintro (h | h)
    · cases h
    · exact hn h)]
  rfl

theorem rowSet_key {r : Row} {k : List Char} {v : Value} {kv : List Char × Value}
    (h : kv ∈ rowSet r k v) : kv.1 = k ∨ kv ∈ r := by
  unfold rowSet at h
  split at h
  · obtain ⟨p, hp, hmap⟩ := List.mem_map.1 h
    split at hmap
    · exact Or.inl (by rw [← hmap])
    · exact Or.inr (hmap ▸ hp)
  · rcases List.mem_append.1 h with h1 | h1
    · exact Or.inr h1
    · simp at h1
      exact Or.inl (by rw [h1])

theorem buildRow_keys :
    ∀ (pairs : List (List Char × List Char)) (r0 r : Row),
      buildRow pairs r0 = .ok r →
      ∀ kv ∈ r, kv ∈ r0 ∨ kv.1 ∈ pairs.map Prod.fst := by
  intro pairs
  induction pairs with
  | nil =>
    intro r0 r h kv hkv
    rw [buildRow] at h
    cases h
    exact Or.inl hkv
  | cons fv rest ih =>
    intro r0 r h kv hkv
    obtain ⟨f, v⟩ := fv
    rw [buildRow] at h
    split at h
    · cases h
    · rename_i val hval
      rcases ih _ _ h kv hkv with h1 | h1
      · rcases rowSet_key h1 with h2 | h2
        · exact Or.inr (by simp [h2])
        · exact Or.inl h2
      · exact Or.inr (by simp [h1])

theorem row_keys_in_fields {fields : List (List Char)} {values : List (List Char)}
    {row : Row} (h : buildRow (fields.zip values) [] = .ok row) :
    ∀ kv ∈ row, kv.1 ∈ fields := by
  intro kv hkv
  rcases buildRow_keys _ _ _ h kv hkv with h1 | h1
  · cases h1
  · obtain ⟨p, hp, hfst⟩ := List.mem_map.1 h1
    obtain ⟨a, b⟩ := p
    have := List.of_mem_zip hp
    exact hfst ▸ this.1

theorem parseRows_keys :
    ∀ (fields : List (List Char)) (fuel : Nat) (insum : Bool) (rows srows : List Row)
      (s : List Char) (rez : List Row × List Row × List Char),
      parseRows fields fuel insum rows srows s = .ok rez →
      (∀ r ∈ rows ++ srows, ∀ kv ∈ r, kv.1 ∈ fields) →
      ∀ r ∈ rez.1 ++ rez.2.1, ∀ kv ∈ r, kv.1 ∈ fields := by
  intro fields fuel
  induction fuel with
  | zero =>
    intro insum rows srows s rez h hpre
    cases s with
    | nil =>
      rw [parseRows] at h
      cases h
      exact hpre
    | cons c rest =>
      rw [parseRows] at h
      cases h
  | succ fuel ih =>
    intro insum rows srows s rez h hpre
    cases s with
    | nil =>
      rw [parseRows] at h
      cases h
      exact hpre
    | cons c rest =>
      rw [parseRows.eq_def] at h
      simp only at h
      split at h
      · cases h; exact hpre
      · split at h
        · cases h; exact hpre
        · split at h
          · exact ih _ _ _ _ _ h hpre
          · split at h
            · exact ih _ _ _ _ _ h hpre
            · split at h
              · cases h
              · split at h
                · cases h; exact hpre
                · split at h
                  · cases h
                  · rename_i values hvne row hbr
                    have hrow : ∀ kv ∈ row, kv.1 ∈ fields := row_keys_in_fields hbr
                    split at h
                    · refine ih _ _ _ _ _ h ?_
                      intro r hr kv hkv
                      rcases List.mem_append.1 hr with h1 | h1
                      · exact hpre r (List.mem_append.2 (Or.inl h1)) kv hkv
                      · rcases List.mem_append.1 h1 with h2 | h2
                        · exact hpre r (List.mem_append.2 (Or.inr h2)) kv hkv
                        · simp at h2
                          exact hrow kv (h2 ▸ hkv)
                    · refine ih _ _ _ _ _ h ?_
                      intro r hr kv hkv
                      rcases List.mem_append.1 hr with h1 | h1
                      · rcases List.mem_append.1 h1 with h2 | h2
                        · exact hpre r (List.mem_append.2 (Or.inl h2)) kv hkv
                        · simp at h2
                          exact hrow kv (h2 ▸ hkv)
                      · exact hpre r (List.mem_append.2 (Or.inr h1)) kv hkv

theorem parseBlock_keys :
    ∀ (s : List Char) (b : Block) (rest : List Char),
      parseBlock s = .ok (some b, rest) →
      ∀ r ∈ b.rows ++ b.summaryRows, ∀ kv ∈ r, kv.1 ∈ b.fields := by
  intro s b rest h
  rw [parseBlock.eq_def] at h
  split at h
  · simp at h
  · split at h
    · simp at h
    · split at h
      · cases h
      · simp only at h
        split at h
        · cases h
        · split at h
          · simp only [Except.ok.injEq, Prod.mk.injEq, Option.some.injEq] at h
            rw [← h.1]
            simp
          · split at h
            · simp only [Except.ok.injEq, Prod.mk.injEq, Option.some.injEq] at h
              rw [← h.1]
              simp
            · split at h
              · cases h
              · split at h
                · cases h
                · rename_i rows srows rest' heq
                  simp only [Except.ok.injEq, Prod.mk.injEq, Option.some.injEq] at h
                  rw [← h.1]
                  intro r hr kv hkv
                  exact parseRows_keys _ _ _ _ _ _ _ heq (by simp) r hr kv hkv

theorem parseLoop_keys :
    ∀ (fuel : Nat) (s : List Char) (bs : List Block),
      parseLoop fuel s = .ok bs →
      ∀ b ∈ bs, ∀ r ∈ b.rows ++ b.summaryRows, ∀ kv ∈ r, kv.1 ∈ b.fields := by
  intro fuel
  induction fuel with
  | zero =>
    intro s bs h
    cases s with
    | nil =>
      rw [parseLoop] at h
      cases h
      intro b hb
      exact absurd hb (List.not_mem_nil b)
    | cons c rest =>
      rw [parseLoop] at h
      cases h
  | succ fuel ih =>
    intro s bs h
    cases s with
    | nil =>
      rw [parseLoop] at h
      cases h
      intro b hb
      exact absurd hb (List.not_mem_nil b)
    | cons c rest =>
      rw [parseLoop.eq_def] at h
      simp only at h
      split at h
      · cases h
      · rename_i pb b? s' heq
        split at h
        · cases h
        · rename_i bs' heq2
          cases h
          cases b? with
          | none =>
            exact ih _ _ heq2
          | some b0 =>
            intro b hb
            rcases List.mem_cons.1 hb with h1 | h1
            · subst h1
              exact parseBlock_keys _ _ _ heq
            · exact ih _ _ heq2 b h1

-- ==========================================================================
-- Theorems: the claims
-- ==========================================================================

/-- C1: round-trip evidence of the code bug.  The parser-built document for
`table.t\na b\n"" 1` holds the empty string for field a; serializeString
does not quote the empty string, so the row serializes to the line ` 1`
(with either alignment setting the serialized text is the same up to
padding), which re-parses to the single binding a = 1: the blocks of
parse(dumps(d)) do not have the same row values as d. -/
theorem C1_roundtrip_bug :
    parse (("table.t\na b\n\"\" 1").data) =
      .ok ⟨[⟨("table").data, ("t").data, [("a").data, ("b").data],
            [⟨("a").data, none, false⟩, ⟨("b").data, none, false⟩],
            [[(("a").data, .str []), (("b").data, .int 1)]], []⟩]⟩ ∧
    dumps ⟨[⟨("table").data, ("t").data, [("a").data, ("b").data],
            [⟨("a").data, none, false⟩, ⟨("b").data, none, false⟩],
            [[(("a").data, .str []), (("b").data, .int 1)]], []⟩]⟩ false =
      (("table.t\na b\n 1").data) ∧
    dumps ⟨[⟨("table").data, ("t").data, [("a").data, ("b").data],
            [⟨("a").data, none, false⟩, ⟨("b").data, none, false⟩],
            [[(("a").data, .str []), (("b").data, .int 1)]], []⟩]⟩ true =
      (("table.t\na b\n  1").data) ∧
    parse (("table.t\na b\n 1").data) =
      .ok ⟨[⟨("table").data, ("t").data, [("a").data, ("b").data],
            [⟨("a").data, none, false⟩, ⟨("b").data, none, false⟩],
            [[(("a").data, .int 1)]], []⟩]⟩ ∧
    parse (("table.t\na b\n  1").data) =
      .ok ⟨[⟨("table").data, ("t").data, [("a").data, ("b").data],
            [⟨("a").data, none, false⟩, ⟨("b").data, none, false⟩],
            [[(("a").data, .int 1)]], []⟩]⟩ ∧
    ([[(("a").data, Value.str []), (("b").data, Value.int 1)]] : List Row) ≠
      [[(("a").data, Value.int 1)]] :=
  ⟨by rfl, by rfl, by rfl, by rfl, by rfl, by decide⟩

/-- C2 counterexample: for `table.t\na b c\n1 2` the claim asserts the row
maps c to Null; in the code the row simply has no entry for c (rowGet
returns none, undefined, not the parsed Null value). -/
theorem C2_counterexample :
    parse (("table.t\na b c\n1 2").data) =
      .ok ⟨[⟨("table").data, ("t").data, [("a").data, ("b").data, ("c").data],
            [⟨("a").data, none, false⟩, ⟨("b").data, none, false⟩, ⟨("c").data, none, false⟩],
            [[(("a").data, .int 1), (("b").data, .int 2)]], []⟩]⟩ ∧
    rowGet [(("a").data, Value.int 1), (("b").data, Value.int 2)] (("c").data) = none ∧
    rowGet [(("a").data, Value.int 1), (("b").data, Value.int 2)] (("c").data) ≠
      some Value.null :=
  ⟨by rfl, by decide, by decide⟩

/-- C3: evidence of the code bug.  tokenizeLine returns bare strings with
no quoted flag, so the data lines `"true"` and `"123"` are inferred as
Bool(true) and Int(123) instead of the strings the claim (and the sibling
JS implementation, which passes wasQuoted to its TypeInferrer) requires. -/
theorem C3_quoted_inference_bug :
    tokenizeLine (("\"true\"").data) = .ok [("true").data] ∧
    parse (("table.t\nv\n\"true\"\n\"123\"").data) =
      .ok ⟨[⟨("table").data, ("t").data, [("v").data], [⟨("v").data, none, false⟩],
            [[(("v").data, .bool true)], [(("v").data, .int 123)]], []⟩]⟩ ∧
    Value.bool true ≠ Value.str (("true").data) :=
  ⟨by rfl, by rfl, by decide⟩

/-- C4 counterexample: in the values section of an ISONL line an opened,
never-closed quote is not an error - ISONLParser.tokenizeValues silently
takes the rest of the line as the token, so `table.t|v|"abc` decodes
successfully, contradicting the claim that tokenizing fails wherever a
quote is opened and the line ends first. -/
theorem C4_counterexample :
    tokenizeValues (("\"abc").data) = [("abc").data] ∧
    loadsIsonl (("table.t|v|\"abc").data) =
      .ok ⟨[⟨("table").data, ("t").data, [("v").data], [⟨("v").data, none, false⟩],
            [[(("v").data, .str (("abc").data))]], []⟩]⟩ :=
  ⟨by rfl, by rfl⟩

/-- C6 counterexample: the claim's quoting predicate holds for the empty
string, but serializeString emits the empty string verbatim (unquoted). -/
theorem C6_counterexample :
    claimQuotePred [] = true ∧ serializeString [] = [] ∧
    needsQuotes [] = false := ⟨by decide, by decide, by decide⟩

/-- C8 counterexample: after the `---` separator every following data line
is retained, so this block's summary has two rows, contradicting "at most
one row". -/
theorem C8_counterexample :
    parse (("table.t\na\n---\n1\n2").data) =
      .ok ⟨[⟨("table").data, ("t").data, [("a").data], [⟨("a").data, none, false⟩],
            [], [[(("a").data, .int 1)], [(("a").data, .int 2)]]⟩]⟩ ∧
    ([[(("a").data, Value.int 1)], [(("a").data, Value.int 2)]] : List Row).length = 2 :=
  ⟨by rfl, by decide⟩

/-- C9 counterexample: a block header that is the last content of the
input parses successfully to a block with no fields - no SyntaxError is
raised. -/
theorem C9_counterexample :
    parse (("table.t").data) =
      .ok ⟨[⟨("table").data, ("t").data, [], [], [], []⟩]⟩ := by rfl

/-- C7: evidence of the code bug.  dumpsIsonl quotes the pipe inside the
string value a|b, but ISONLParser.parse splits the line on every pipe
(quotes are not respected), sees four sections instead of three, and
throws - so the serializer's own output fails to decode, although the line
has exactly two unquoted pipes. -/
theorem C7_pipe_bug :
    dumpsIsonl ⟨[⟨("table").data, ("t").data, [("v").data], [⟨("v").data, none, false⟩],
                 [[(("v").data, .str (("a|b").data))]], []⟩]⟩ =
      (("table.t|v|\"a|b\"").data) ∧
    loadsIsonl (("table.t|v|\"a|b\"").data) =
      .error ("Invalid ISONL line: table.t|v|\"a|b\"") ∧
    (splitOnChar '|' (("table.t|v|\"a|b\"").data)).length = 4 :=
  ⟨by rfl, by rfl, by decide⟩

/-- C5: the reference case rule.  `:OWNS:5` is a relationship reference
with id 5, `:user:42` a namespaced reference with id 42, `:7` a bare id;
in general a two-part reference token `:X:id` parses to Reference(id, X),
whose middle segment is a relationship iff X is non-empty and every
character is an ASCII upper-case letter or underscore; and on every
Reference at most one of getNamespace / relationshipType is set. -/
theorem C5_reference_rule :
    parseValue ((":OWNS:5").data) = .ok (.ref ⟨("5").data, some (("OWNS").data)⟩) ∧
    Reference.relationshipType ⟨("5").data, some (("OWNS").data)⟩ = some (("OWNS").data) ∧
    Reference.getNamespace ⟨("5").data, some (("OWNS").data)⟩ = none ∧
    parseValue ((":user:42").data) = .ok (.ref ⟨("42").data, some (("user").data)⟩) ∧
    Reference.getNamespace ⟨("42").data, some (("user").data)⟩ = some (("user").data) ∧
    Reference.relationshipType ⟨("42").data, some (("user").data)⟩ = none ∧
    parseValue ((":7").data) = .ok (.ref ⟨("7").data, none⟩) ∧
    Reference.getNamespace ⟨("7").data, none⟩ = none ∧
    Reference.relationshipType ⟨("7").data, none⟩ = none ∧
    (∀ X id : List Char, ':' ∉ X → ':' ∉ id →
      parseReference (':' :: X ++ ':' :: id) = .ok (.ref ⟨id, some X⟩)) ∧
    (∀ id X : List Char,
      (Reference.mk id (some X)).isRelationship = true ↔
        X ≠ [] ∧ ∀ c ∈ X, isUpperUnd c = true) ∧
    (∀ r : Reference, r.getNamespace = none ∨ r.relationshipType = none) := by
  refine ⟨by rfl, by decide, by decide, by rfl, by decide, by decide, by rfl,
    by decide, by decide, ?_, isRelationship_iff, ref_exclusive⟩
  intro X id hX hid
  unfold parseReference
  simp only [List.drop_one, List.cons_append, List.tail_cons]
  rw [splitOnChar_append ':' X id hX, splitOnChar_no_sep ':' id hid]

/-- Witness for C5 at the concrete middle segment OWNS and id 5. -/
theorem C5_witness :
    parseReference (':' :: ("OWNS").data ++ ':' :: ("5").data) =
      .ok (.ref ⟨("5").data, some (("OWNS").data)⟩) ∧
    ((Reference.mk (("5").data) (some (("OWNS").data))).isRelationship = true ↔
      ("OWNS").data ≠ [] ∧ ∀ c ∈ ("OWNS").data, isUpperUnd c = true) :=
  ⟨C5_reference_rule.2.2.2.2.2.2.2.2.2.1 (("OWNS").data) (("5").data)
      (by decide) (by decide),
   C5_reference_rule.2.2.2.2.2.2.2.2.2.2.1 (("5").data) (("OWNS").data)⟩

/-- C10: two blocks with the same name are kept as separate entries of
Document.blocks in input order with their own rows (no merging, no
overwriting, no error), and getBlock returns the earliest block whose name
matches (Document.getBlock is Array.prototype.find on blocks). -/
theorem C10_duplicate_blocks :
    parse (("table.t\na\n1\n\ntable.t\na\n2").data) =
      .ok ⟨[⟨("table").data, ("t").data, [("a").data], [⟨("a").data, none, false⟩],
            [[(("a").data, .int 1)]], []⟩,
           ⟨("table").data, ("t").data, [("a").data], [⟨("a").data, none, false⟩],
            [[(("a").data, .int 2)]], []⟩]⟩ ∧
    Document.getBlock
      ⟨[⟨("table").data, ("t").data, [("a").data], [⟨("a").data, none, false⟩],
        [[(("a").data, .int 1)]], []⟩,
       ⟨("table").data, ("t").data, [("a").data], [⟨("a").data, none, false⟩],
        [[(("a").data, .int 2)]], []⟩]⟩ (("t").data) =
      some ⟨("table").data, ("t").data, [("a").data], [⟨("a").data, none, false⟩],
            [[(("a").data, .int 1)]], []⟩ ∧
    (∀ (d : Document) (n : List Char) (b : Block),
      d.getBlock n = some b →
      ∃ l1 l2, d.blocks = l1 ++ b :: l2 ∧ b.name = n ∧ ∀ x ∈ l1, x.name ≠ n) := by
  refine ⟨by rfl, by rfl, ?_⟩
  intro d n b h
  obtain ⟨l1, l2, heq, hb, hall⟩ := find_first _ d.blocks b h
  refine ⟨l1, l2, heq, by simpa using hb, ?_⟩
  intro x hx
  have := hall x hx
  simpa using this

/-- Witness for C10's general getBlock clause on a one-block document. -/
theorem C10_witness :
    ∃ l1 l2,
      (Document.mk [⟨("table").data, ("t").data, [], [], [], []⟩]).blocks =
        l1 ++ (⟨("table").data, ("t").data, [], [], [], []⟩ : Block) :: l2 ∧
      (Block.mk (("table").data) (("t").data) [] [] [] []).name = ("t").data ∧
      ∀ x ∈ l1, x.name ≠ ("t").data :=
  C10_duplicate_blocks.2.2 ⟨[⟨("table").data, ("t").data, [], [], [], []⟩]⟩
    (("t").data) ⟨("table").data, ("t").data, [], [], [], []⟩ (by rfl)

/-- C6 amended: the string serializer emits a quoted/escaped token iff the
string contains a space, tab, double-quote, newline or backslash, equals
exactly true/false/null, starts with a colon, or matches the type
inferencer's integer/decimal patterns; otherwise (the empty string
included) it is emitted verbatim unquoted.  The first conjunct ties the
code's needsQuotes (whose number test is its own regex) to this predicate,
whose number test is the type inferencer's two regexes. -/
theorem C6_amended :
    (∀ s : List Char, needsQuotes s = amendedQuotePred s) ∧
    (∀ s : List Char, amendedQuotePred s = true →
      serializeString s = '"' :: escapeTS s ++ ['"']) ∧
    (∀ s : List Char, amendedQuotePred s = false → serializeString s = s) := by
  refine ⟨needsQuotes_eq, ?_, ?_⟩ <;> intro s h <;> unfold serializeString <;>
    rw [needsQuotes_eq s, h] <;> simp

/-- Witness for C6 at a quoted string (a b) and an unquoted one (abc). -/
theorem C6_witness :
    amendedQuotePred (("a b").data) = true ∧
    serializeString (("a b").data) = '"' :: escapeTS (("a b").data) ++ ['"'] ∧
    amendedQuotePred (("abc").data) = false ∧
    serializeString (("abc").data) = ("abc").data :=
  ⟨by decide, C6_amended.2.1 _ (by decide), by decide, C6_amended.2.2 _ (by decide)⟩

/-- C4 amended: the block-format tokenizer fails with the unterminated
string error iff, scanning the comment-stripped line left to right, a
double quote is opened (at a token start) and the line ends before a
matching unescaped closing quote; but the ISONL values tokenizer never
fails - an opened quote that is never closed simply yields the remaining
characters of the line as the token. -/
theorem C4_amended :
    (∀ line : List Char,
      tokenizeLine line = .error ("Unterminated string") ↔
        specUnterm (stripComment line none false) .outside = true) ∧
    (∀ s : List Char, '"' ∉ s → '\\' ∉ s → tokenizeValues ('"' :: s) = [s]) := by
  constructor
  · intro line
    unfold tokenizeLine
    exact tokensAux_iff _ _ (Nat.lt_succ_self _)
  · intro s hq hbs
    show tokenizeValuesAux (('"' :: s).length + 1) ('"' :: s) = [s]
    have hlen : ('"' :: s).length + 1 = s.length + 1 + 1 := by simp
    rw [hlen]
    unfold tokenizeValuesAux
    rw [if_neg (by decide), if_pos rfl, isonlQString_all s hq hbs]
    simp [tokenizeValuesAux]

/-- Witness for C4 at the unterminated line `"ab` and the ISONL token
body ab. -/
theorem C4_witness :
    (tokenizeLine (("\"ab").data) = .error ("Unterminated string") ↔
      specUnterm (stripComment (("\"ab").data) none false) .outside = true) ∧
    tokenizeValues ('"' :: ("ab").data) = [("ab").data] :=
  ⟨C4_amended.1 (("\"ab").data), C4_amended.2 (("ab").data) (by decide) (by decide)⟩

/-- C8 amended: a line equal to exactly `---` switches the row loop into
summary mode; once in summary mode the data-row list never grows (every
further data line goes to summaryRows), and all such lines are retained,
so the summary can hold more than one row (two in the concrete run). -/
theorem C8_amended :
    (∀ (fields : List (List Char)) (rows srows : List Row) (s : List Char) (fuel : Nat),
      parseRows fields (fuel + 1) false rows srows ('-' :: '-' :: '-' :: '\n' :: s) =
        parseRows fields fuel true rows srows s) ∧
    (∀ (fields : List (List Char)) (fuel : Nat) (rows srows : List Row) (s : List Char)
       (rez : List Row × List Row × List Char),
      parseRows fields fuel true rows srows s = .ok rez → rez.1 = rows) ∧
    (parse (("table.t\na\n---\n1\n2").data)).map (fun d => d.blocks.map (·.summaryRows)) =
      .ok [[[(("a").data, .int 1)], [(("a").data, .int 2)]]] :=
  ⟨fun _ _ _ _ _ => rfl, parseRows_summary_keeps_rows, by rfl⟩

/-- Witness for C8: a concrete summary-mode run whose data rows stay
untouched while the parsed line lands in summaryRows. -/
theorem C8_witness :
    parseRows [("a").data] 1 true [[(("x").data, Value.null)]] [] (("1").data) =
      .ok ([[(("x").data, Value.null)]], [[(("a").data, Value.int 1)]], []) ∧
    ([[(("x").data, Value.null)]], [[(("a").data, Value.int 1)]], ([] : List Char)).1 =
      [[(("x").data, Value.null)]] :=
  ⟨by rfl,
   C8_amended.2.1 [("a").data] 1 [[(("x").data, Value.null)]] [] (("1").data)
     ([[(("x").data, Value.null)]], [[(("a").data, Value.int 1)]], []) (by rfl)⟩

/-- C9 amended: a block header that is the last content of the input (the
input is just `kind.name`) parses to a document holding that block with an
empty field list and no rows - no SyntaxError is raised. -/
theorem C9_amended :
    ∀ kind name : List Char, kind ≠ [] → name ≠ [] →
      (∀ c ∈ kind, isLowerC c = true) → (∀ c ∈ name, isLowerC c = true) →
      parse (kind ++ '.' :: name) = .ok ⟨[⟨kind, name, [], [], [], []⟩]⟩ := by
  intro kind name hk hn hlk hln
  obtain ⟨c, k', rfl⟩ : ∃ c k', kind = c :: k' := by
    cases kind with
    | nil => exact absurd rfl hk
    | cons a b => exact ⟨a, b, rfl⟩
  have hc : isLowerC c = true := hlk c (List.mem_cons_self c k')
  have hskip : skipBlanks ((c :: (k' ++ '.' :: name)).length + 1)
      (c :: (k' ++ '.' :: name)) = c :: (k' ++ '.' :: name) :=
    skipBlanks_noop (lower_not_ws hc) (lower_ne hc (by decide))
  have hpb := parseBlock_header_only hlk hln hn
  unfold parse
  simp only [List.cons_append, hskip]
  rw [parseLoop.eq_def]
  simp only
  rw [hpb]
  simp only
  rfl

/-- Witness for C9 at the header table.t. -/
theorem C9_witness :
    parse (("table").data ++ '.' :: ("t").data) =
      .ok ⟨[⟨("table").data, ("t").data, [], [], [], []⟩]⟩ :=
  C9_amended (("table").data) (("t").data) (by decide) (by decide)
    (by decide) (by decide)

/-- C2 amended: every row a parse produces (data and summary alike) binds
only declared fields; a data line with fewer tokens than declared fields
leaves the unfilled trailing fields absent (rowGet returns none, not the
Null value) and parses without error; and tokens beyond the declared
fields are discarded. -/
theorem C2_amended :
    (∀ (text : List Char) (doc : Document), parse text = .ok doc →
      ∀ b ∈ doc.blocks, ∀ r ∈ b.rows ++ b.summaryRows, ∀ kv ∈ r, kv.1 ∈ b.fields) ∧
    (parse (("table.t\na b c\n1 2").data)).map
        (fun d => d.blocks.map (fun b => b.rows.map (fun r => rowGet r (("c").data)))) =
      .ok [[none]] ∧
    parse (("table.t\na\n1 2 3").data) =
      .ok ⟨[⟨("table").data, ("t").data, [("a").data], [⟨("a").data, none, false⟩],
            [[(("a").data, .int 1)]], []⟩]⟩ := by
  refine ⟨?_, by rfl, by rfl⟩
  intro text doc h b hb
  unfold parse at h
  simp only at h
  split at h
  · cases h
  · rename_i bs heq
    cases h
    exact parseLoop_keys _ _ _ heq b hb

/-- Witness for C2: the general clause applied to the parsed document of
the short-row input, at the binding a = 1. -/
theorem C2_witness :
    (("a").data) ∈ (Block.mk (("table").data) (("t").data)
      [("a").data, ("b").data, ("c").data]
      [⟨("a").data, none, false⟩, ⟨("b").data, none, false⟩, ⟨("c").data, none, false⟩]
      [[(("a").data, Value.int 1), (("b").data, Value.int 2)]] []).fields :=
  C2_amended.1 (("table.t\na b c\n1 2").data)
    ⟨[⟨("table").data, ("t").data, [("a").data, ("b").data, ("c").data],
      [⟨("a").data, none, false⟩, ⟨("b").data, none, false⟩, ⟨("c").data, none, false⟩],
      [[(("a").data, Value.int 1), (("b").data, Value.int 2)]], []⟩]⟩
    (by rfl) _ (by simp)
    [(("a").data, Value.int 1), (("b").data, Value.int 2)] (by simp)
    ((("a").data, Value.int 1)) (by simp)

end Ison
